import Mathlib

set_option linter.unusedVariables false

/-!
Shallow embedding of `src/merge_m3u.py` (an M3U playlist fetch/parse/merge/save
pipeline) together with proofs about its parser, merger and serializer.

Strings are modelled by Lean `String`; the Python string operations used by the
program (`str.lower`, `str.strip`, `str.startswith`, `in`-substring tests,
`str.split('\n')`) are modelled by executable functions on the underlying
character lists, faithful for the ASCII data the program manipulates.
-/

/-- Configuration constant `EXCLUDED_GROUPS` (merge_m3u.py line 27). -/
def EXCLUDED_GROUPS : List String := ["devotional", "music", "educational"]

/-- Configuration constant `EXCLUDE_LANGUAGES` (merge_m3u.py line 30). -/
def EXCLUDE_LANGUAGES : List String :=
  ["tamil", "telugu", "oriya", "gujarati", "kannada", "malayalam", "bhojpuri",
   "punjabi", "marathi"]

/-- Configuration constant `EPG_URL` (merge_m3u.py line 32). -/
def EPG_URL : String := "https://raw.githubusercontent.com/ibyb007/myepg/main/epg.xml.gz"

/-- ASCII whitespace, as stripped by Python `str.strip()`. -/
def pyIsSpace (c : Char) : Bool :=
  c = ' ' || c = '\t' || c = '\n' || c = '\r' || c = '\x0b' || c = '\x0c'

/-- Python `str.lower()` (ASCII model). -/
def pyLower (s : String) : String := String.mk (s.data.map Char.toLower)

/-- Python `str.strip()` (ASCII model). -/
def pyStrip (s : String) : String :=
  String.mk (((s.data.dropWhile pyIsSpace).reverse.dropWhile pyIsSpace).reverse)

/-- Python truthiness test `not s.strip()`: the string is empty or all whitespace. -/
def isBlankPy (s : String) : Bool := s.data.all pyIsSpace

/-- Python `s.startswith(p)`. -/
def pyStartsWith (s p : String) : Bool := p.data.isPrefixOf s.data

/-- Contiguous-sublist test on character lists (used to model Python's
`needle in hay` substring operator). -/
def containsSub (needle : List Char) : List Char → Bool
  | [] => needle.isEmpty
  | c :: cs => needle.isPrefixOf (c :: cs) || containsSub needle cs

/-- Python substring operator `needle in hay`. -/
def pyContains (hay needle : String) : Bool := containsSub needle.data hay.data

/-- The single-character comment marker `"#"`. -/
def markStr : String := "#"

/-- The directive marker `"#EXTINF:"`. -/
def extinfStr : String := "#EXTINF:"

/-- The text `f'group-title="{group}"'` searched for by `is_excluded_group`
(merge_m3u.py line 52). -/
def gtPat (group : String) : String := "group-title=\"" ++ group ++ "\""

/-- `is_excluded_group` (merge_m3u.py lines 48-54): lowercases the whole
`#EXTINF` line and tests whether the literal text `group-title="<g>"` occurs
in it as a substring, for any excluded group `<g>`. -/
def is_excluded_group (extinf_line : String) : Bool :=
  EXCLUDED_GROUPS.any (fun group => pyContains (pyLower extinf_line) (gtPat group))

/-- `is_excluded_language` (merge_m3u.py lines 56-62): lowercases the title and
tests each excluded language for substring occurrence. -/
def is_excluded_language (title : String) : Bool :=
  EXCLUDE_LANGUAGES.any (fun lang => pyContains (pyLower title) lang)

/-- The characters of the regex's fixed part `group-title="` (lowercase). -/
def gtKeyChars : List Char := ("group-title=\"").data

/-- Case-insensitive match of the (lowercase) pattern against the front of the
input; on success returns the remaining input.  Models the fixed part of the
regex `group-title="` under `re.IGNORECASE`. -/
def ciMatch : List Char → List Char → Option (List Char)
  | [], cs => some cs
  | _ :: _, [] => none
  | p :: ps, c :: cs => if c.toLower = p then ciMatch ps cs else none

/-- The capture `([^"]*)"` of the regex: succeeds only when a closing quote
exists, capturing the characters before it. -/
def takeVal (cs : List Char) : Option (List Char) :=
  if cs.contains '"' then some (cs.takeWhile (fun c => c ≠ '"')) else none

/-- Leftmost match of `re.search(r'group-title="([^"]*)"', line, re.IGNORECASE)`:
try the full pattern at each successive start position. -/
def findGT : List Char → Option (List Char)
  | [] => none
  | c :: cs =>
    match ciMatch gtKeyChars (c :: cs) with
    | some rest =>
      match takeVal rest with
      | some v => some v
      | none => findGT cs
    | none => findGT cs

/-- `get_group_title` (merge_m3u.py lines 43-46): value of the quoted
`group-title` attribute (case-insensitive key match), lowercased; `''` when
the attribute is absent. -/
def get_group_title (extinf_line : String) : String :=
  match findGT extinf_line.data with
  | some v => pyLower (String.mk v)
  | none => ""

/-- The group `(.+)` of `re.search(r',(.+)$', line)`: everything after the
leftmost comma that is followed by at least one character; `[]` when no such
comma exists. -/
def afterComma : List Char → List Char
  | [] => []
  | ',' :: c :: rest => c :: rest
  | _ :: rest => afterComma rest

/-- Title extraction of `parse_m3u` (merge_m3u.py lines 91-93):
`re.search(r',(.+)$', extinf)` followed by `.strip()`, `''` on no match. -/
def extractTitle (extinf_line : String) : String :=
  pyStrip (String.mk (afterComma extinf_line.data))

/-- An insertion-ordered mapping from URL to entry block, modelled as the
ordered list of its key-value pairs (Python `OrderedDict`). -/
abbrev Entries := List (String × List String)

/-- Python `url in entries` membership test on the ordered mapping. -/
def containsKey (entries : Entries) (url : String) : Bool :=
  entries.any (fun p => p.1 == url)

/-- The idiom `if url not in entries: entries[url] = block` used at
merge_m3u.py lines 120-121 and 146-147: insert at the end only when the key
is absent. -/
def odInsertIfAbsent (entries : Entries) (url : String) (block : List String) : Entries :=
  if containsKey entries url then entries else entries ++ [(url, block)]

/-- Mapping lookup `entries[url]` (first pair with the given key). -/
def odLookup (entries : Entries) (url : String) : Option (List String) :=
  (entries.find? (fun p => p.1 == url)).map (fun p => p.2)

/-- The iteration order of the mapping's keys. -/
def odKeys (entries : Entries) : List String := entries.map (fun p => p.1)

/-- The prop-collection test of the inner loop at merge_m3u.py line 110:
`next_line.startswith('#') and not next_line.startswith('#EXTINF:')`. -/
def isPropLine (l : String) : Bool :=
  pyStartsWith l markStr && !(pyStartsWith l extinfStr)

/-- The skip-loop test at merge_m3u.py lines 85 and 99:
`lines[i].startswith('#') or not lines[i].strip()`. -/
def skipP (l : String) : Bool := pyStartsWith l markStr || isBlankPy l

/-- The prop-collection loop at merge_m3u.py lines 108-114: take the maximal
run of `#`-lines that are not new `#EXTINF:` directives, returning them with
the remaining lines. -/
def collectProps : List String → List String × List String
  | [] => ([], [])
  | l :: ls =>
    if isPropLine l then
      let r := collectProps ls
      (l :: r.1, r.2)
    else ([], l :: ls)

/-- The block-skipping code at merge_m3u.py lines 84-88 (and 98-102): advance
past every line that starts with `#` or is blank, then past one more line if
it does not start with `#` (the skipped URL). -/
def skipBlock (ls : List String) : List String :=
  match ls.dropWhile skipP with
  | [] => []
  | u :: rest => if !(pyStartsWith u markStr) then rest else u :: rest

/-- The main `while i < len(lines)` loop of `parse_m3u` (merge_m3u.py lines
76-135), processing the list of not-yet-consumed lines.  The first argument is
an iteration budget: `none` means the budget was exhausted before the loop
finished, and never arises for a budget exceeding the number of lines (proved
below). -/
def parseGoF : Nat → List String → Entries → Option Entries
  | 0, _, _ => none
  | _ + 1, [], entries => some entries
  | n + 1, line :: ls, entries =>
    if pyStartsWith line extinfStr then
      if is_excluded_group line then
        parseGoF n (skipBlock ls) entries
      else if is_excluded_language (extractTitle line) then
        parseGoF n (skipBlock ls) entries
      else
        match collectProps ls with
        | (_, []) => some entries
        | (props, url :: rest) =>
          if url != "" && !(pyStartsWith url markStr) then
            parseGoF n rest (odInsertIfAbsent entries url (line :: props))
          else
            parseGoF n rest entries
    else if line != "" && !(pyStartsWith line markStr) then
      parseGoF n ls (odInsertIfAbsent entries line [])
    else
      parseGoF n ls entries

/-- The parse loop run with a sufficient budget (one more than the number of
lines; sufficiency is proved below). -/
def parseGo (ls : List String) (entries : Entries) : Entries :=
  (parseGoF (ls.length + 1) ls entries).getD []

/-- Python `content.split('\n')`: accumulate the current line (reversed) while
scanning. -/
def splitLinesAux : List Char → List Char → List String
  | [], acc => [String.mk acc.reverse]
  | c :: cs, acc =>
    if c = '\n' then String.mk acc.reverse :: splitLinesAux cs []
    else splitLinesAux cs (c :: acc)

/-- Python `content.split('\n')`. -/
def pySplitLines (content : String) : List String := splitLinesAux content.data []

/-- `parse_m3u` (merge_m3u.py lines 64-137): `{}` for falsy content, otherwise
run the line-scanning loop on `content.split('\n')` starting from an empty
ordered mapping. -/
def parse_m3u (content : String) : Entries :=
  if content = "" then [] else parseGo (pySplitLines content) []

/-- The inner loop of `merge_m3us` (merge_m3u.py lines 145-149): fold the
(url, block) pairs of one source into the merged mapping, inserting each only
when the url is not yet a key. -/
def mergePairs (merged : Entries) (entries : Entries) : Entries :=
  entries.foldl (fun m p => odInsertIfAbsent m p.1 p.2) merged

/-- `merge_m3us` (merge_m3u.py lines 139-153): fold the per-source mappings in
the given order, inserting each (url, block) pair only when the url is not yet
a key of the merged mapping. -/
def merge_m3us (source_entries : List (String × Entries)) : Entries :=
  source_entries.foldl (fun merged s => mergePairs merged s.2) []

/-- The string `"\n"` written after every output line. -/
def newlineStr : String := "\n"

/-- The header line `f'#EXTM3U url-tvg="{EPG_URL}"'` (merge_m3u.py line 158),
without its trailing newline. -/
def m3uHeader : String := "#EXTM3U url-tvg=\"" ++ EPG_URL ++ "\""

/-- `save_merged` (merge_m3u.py lines 155-163): the full text written to the
output file — header line first, then for every entry its block lines and
then its url, each line followed by a newline. -/
def save_merged (merged : Entries) : String :=
  merged.foldl
    (fun acc p => (p.2.foldl (fun a b => a ++ b ++ newlineStr) acc) ++ p.1 ++ newlineStr)
    (m3uHeader ++ newlineStr)

/-- The source-loading loop of `main` (merge_m3u.py lines 168-177), given the
fetch outcome of each source in priority order (`none` = `fetch_m3u` returned
`None`).  A source is added to `source_entries` (keyed by its distinct
`Source {i}` name) exactly when its content is truthy, i.e. a non-empty
string. -/
def loadSourcesFrom : Nat → List (Option String) → List (String × Entries)
  | _, [] => []
  | i, none :: rs => loadSourcesFrom (i + 1) rs
  | i, some content :: rs =>
    if content != "" then
      ("Source " ++ toString i, parse_m3u content) :: loadSourcesFrom (i + 1) rs
    else
      loadSourcesFrom (i + 1) rs

/-- `main` (merge_m3u.py lines 165-186), as a function of the fetch outcomes:
load the sources, and if none was loaded return `none` (no merge, no write);
otherwise merge and return the rendered output text that is written. -/
def main_model (fetch_results : List (Option String)) : Option String :=
  let loaded := loadSourcesFrom 1 fetch_results
  if loaded.isEmpty then none else some (save_merged (merge_m3us loaded))

/-- First defined value in a list of optional values (used to state the
cross-source first-wins property of `merge_m3us`). -/
def firstSome {α : Type} : List (Option α) → Option α
  | [] => none
  | some v :: _ => some v
  | none :: rest => firstSome rest

/-- Remove later duplicates from a list of keys, keeping each key at its first
position; `seen` holds the keys already emitted.  Used to state the order
preservation property of `merge_m3us`. -/
def firstDedupAux (seen : List String) : List String → List String
  | [] => []
  | x :: xs =>
    if seen.any (fun s => s == x) then firstDedupAux seen xs
    else x :: firstDedupAux (seen ++ [x]) xs

/-- Remove later duplicates from a list of keys, keeping first positions. -/
def firstDedup (urls : List String) : List String := firstDedupAux [] urls

/-- Follows the spec's words for claim C4: the title is "the trailing segment
of the directive line after its last comma; if the directive line contains no
comma the title is the empty string" (stripped like the code's title, so that
the two definitions differ only in which comma is chosen). -/
def titleAfterLastComma (extinf_line : String) : String :=
  if extinf_line.data.contains ',' then
    pyStrip (String.mk ((extinf_line.data.reverse.takeWhile (fun c => c ≠ ',')).reverse))
  else ""

/-- Render a list of lines as a text document, each line followed by a
newline.  Used to state the serializer's line-structure property. -/
def renderLines : List String → String
  | [] => ""
  | l :: rest => l ++ newlineStr ++ renderLines rest

/-- Concrete directive line for claim C3: its extracted `group-title`
attribute value is `Sports`, but the text `group-title="music"` occurs later
on the line (inside the title). -/
def c3line : String := "#EXTINF:-1 group-title=\"Sports\",group-title=\"music\""

/-- Concrete directive line for claim C4: the segment after the first comma is
`Tamil,ESPN`; the segment after the last comma is `ESPN`. -/
def c4line : String := "#EXTINF:-1,Tamil,ESPN"

/-- Concrete document for claim C4: the directive above with its locator. -/
def c4doc : String := "#EXTINF:-1,Tamil,ESPN\nhttp://e"

/-- Concrete document for claim C5: a category-excluded directive with no
locator of its own, immediately followed by a non-excluded directive block. -/
def c5doc : String :=
  "#EXTINF:-1 group-title=\"Music\",A\n#EXTINF:-1 group-title=\"Sports\",B\nhttp://b"

/-- Concrete document for claim C10: a non-excluded directive whose props are
separated from the locator by a whitespace-only (but non-empty) line. -/
def c10doc : String := "#EXTINF:-1,A\n \nhttp://u"

/-- Concrete document for claim C3: the directive `c3line` with a locator. -/
def c3doc : String :=
  "#EXTINF:-1 group-title=\"Sports\",group-title=\"music\"\nhttp://c3"

/-- The second (non-excluded) directive line of `c5doc`. -/
def c5line2 : String := "#EXTINF:-1 group-title=\"Sports\",B"

/-!  Helper lemmas about the list and string primitives. -/

theorem isPrefixOf_eq_true_iff (n : List Char) :
    ∀ h : List Char, n.isPrefixOf h = true ↔ n <+: h := by
  induction n with
  | nil =>
    intro h
    constructor
    · intro _; exact List.nil_prefix
    · intro _; cases h <;> rfl
  | cons a as ih =>
    intro h
    cases h with
    | nil =>
      constructor
      · intro hc; exact absurd hc (by simp [List.isPrefixOf])
      · intro hp; have := hp.length_le; simp at this
    | cons b bs =>
      have hdef : (a :: as).isPrefixOf (b :: bs) = (a == b && as.isPrefixOf bs) := rfl
      rw [hdef, Bool.and_eq_true, beq_iff_eq, ih bs, List.cons_prefix_cons]

theorem containsSub_eq_true_iff (n : List Char) :
    ∀ h : List Char, containsSub n h = true ↔ n <:+: h := by
  intro h
  induction h with
  | nil =>
    constructor
    · intro hc
      have : n = [] := by
        simpa [containsSub, List.isEmpty_iff] using hc
      simp [this]
    · intro hi
      have : n = [] := by simpa using List.sublist_nil.mp hi.sublist
      simp [this, containsSub]
  | cons c cs ih =>
    have hdef : containsSub n (c :: cs) = (n.isPrefixOf (c :: cs) || containsSub n cs) := rfl
    rw [hdef, Bool.or_eq_true, isPrefixOf_eq_true_iff, ih, List.infix_cons_iff]

theorem dropWhile_append_all {α : Type} {p : α → Bool} (xs ys : List α)
    (h : ∀ x ∈ xs, p x = true) :
    (xs ++ ys).dropWhile p = ys.dropWhile p := by
  induction xs with
  | nil => rfl
  | cons a l ih =>
    simp only [List.cons_append, List.dropWhile_cons, h a (by simp)]
    exact ih (fun x hx => h x (by simp [hx]))

theorem length_dropWhile_le' {α : Type} (p : α → Bool) (l : List α) :
    (l.dropWhile p).length ≤ l.length := by
  induction l with
  | nil => simp
  | cons a l ih =>
    simp only [List.dropWhile_cons]
    split
    · exact le_trans ih (by simp)
    · simp

theorem skipBlock_length_le (ls : List String) :
    (skipBlock ls).length ≤ ls.length := by
  have hd := length_dropWhile_le' skipP ls
  unfold skipBlock
  cases hdw : ls.dropWhile skipP with
  | nil => simp
  | cons u rest =>
    rw [hdw] at hd
    simp only [List.length_cons] at hd
    cases hpm : pyStartsWith u markStr with
    | false =>
      simp only [hpm, Bool.not_false, if_true]
      omega
    | true =>
      simp only [hpm, Bool.not_true, Bool.false_eq_true, if_false, List.length_cons]
      omega

theorem skipBlock_eq (attrs : List String) (u : String) (rest : List String)
    (hall : ∀ a ∈ attrs, skipP a = true) (hu : skipP u = false) :
    skipBlock (attrs ++ u :: rest) = rest := by
  unfold skipBlock
  rw [dropWhile_append_all attrs (u :: rest) hall]
  have hmark : pyStartsWith u markStr = false := by
    unfold skipP at hu
    exact (Bool.or_eq_false_iff.mp hu).1
  simp [List.dropWhile_cons, hu, hmark]

theorem collectProps_append (props : List String) (u : String) (rest : List String)
    (hall : ∀ x ∈ props, isPropLine x = true) (hu : isPropLine u = false) :
    collectProps (props ++ u :: rest) = (props, u :: rest) := by
  induction props with
  | nil => simp [collectProps, hu]
  | cons a l ih =>
    have ha : isPropLine a = true := hall a (by simp)
    have ih' := ih (fun x hx => hall x (by simp [hx]))
    simp only [List.cons_append, collectProps, ha, if_true, List.append_eq, ih']

theorem collectProps_snd_length (ls : List String) :
    (collectProps ls).2.length ≤ ls.length := by
  induction ls with
  | nil => simp [collectProps]
  | cons l ls ih =>
    simp only [collectProps]
    split
    · simpa using le_trans ih (by simp)
    · simp

/-!  Fuel sufficiency for the parse loop. -/

theorem parseGoF_succ_cons (n : Nat) (l : String) (ls : List String) (e : Entries) :
    parseGoF (n + 1) (l :: ls) e =
      if pyStartsWith l extinfStr then
        if is_excluded_group l then parseGoF n (skipBlock ls) e
        else if is_excluded_language (extractTitle l) then parseGoF n (skipBlock ls) e
        else
          match collectProps ls with
          | (_, []) => some e
          | (props, url :: rest) =>
            if url != "" && !(pyStartsWith url markStr) then
              parseGoF n rest (odInsertIfAbsent e url (l :: props))
            else parseGoF n rest e
      else if l != "" && !(pyStartsWith l markStr) then
        parseGoF n ls (odInsertIfAbsent e l [])
      else parseGoF n ls e := rfl

theorem parseGoF_eq_parseGo :
    ∀ (k : Nat) (ls : List String), ls.length ≤ k →
      ∀ (n : Nat) (e : Entries), ls.length < n →
        parseGoF n ls e = some (parseGo ls e) := by
  intro k
  induction k with
  | zero =>
    intro ls hls n e hn
    have hnil : ls = [] := List.length_eq_zero.mp (Nat.le_zero.mp hls)
    subst hnil
    cases n with
    | zero => omega
    | succ n' => simp [parseGoF, parseGo]
  | succ k ih =>
    intro ls hls n e hn
    cases ls with
    | nil =>
      cases n with
      | zero => omega
      | succ n' => simp [parseGoF, parseGo]
    | cons l ls' =>
      cases n with
      | zero => omega
      | succ n' =>
      have hn' : ls'.length < n' := by
        simp only [List.length_cons] at hn; omega
      have hk : ls'.length ≤ k := by
        simp only [List.length_cons] at hls; omega
      have hsb_len : (skipBlock ls').length ≤ ls'.length := skipBlock_length_le ls'
      simp only [parseGo, List.length_cons]
      rw [parseGoF_succ_cons, parseGoF_succ_cons]
      by_cases h1 : pyStartsWith l extinfStr = true
      · by_cases h2 : is_excluded_group l = true
        · simp only [h1, h2, if_true]
          rw [ih (skipBlock ls') (le_trans hsb_len hk) n' e (by omega),
            ih (skipBlock ls') (le_trans hsb_len hk) (ls'.length + 1) e (by omega)]
          simp
        · by_cases h3 : is_excluded_language (extractTitle l) = true
          · simp only [h1, h2, h3, if_true, if_false]
            rw [ih (skipBlock ls') (le_trans hsb_len hk) n' e (by omega),
              ih (skipBlock ls') (le_trans hsb_len hk) (ls'.length + 1) e (by omega)]
            simp
          · rcases hcp : collectProps ls' with ⟨props, rest0⟩
            have hcp_len := collectProps_snd_length ls'
            rw [hcp] at hcp_len
            cases rest0 with
            | nil => simp [h1, h2, h3, hcp]
            | cons url rest =>
              simp only [List.length_cons] at hcp_len
              have hr_k : rest.length ≤ k := by omega
              have hr_n : rest.length < n' := by omega
              have hr_c : rest.length < ls'.length + 1 := by omega
              by_cases h4 : (url != "" && !(pyStartsWith url markStr)) = true
              · simp only [h1, h2, h3, hcp, h4, if_true]
                rw [ih rest hr_k n' (odInsertIfAbsent e url (l :: props)) hr_n,
                  ih rest hr_k (ls'.length + 1) (odInsertIfAbsent e url (l :: props)) hr_c]
                simp
              · simp only [h1, h2, h3, hcp, h4, if_true, if_false]
                rw [ih rest hr_k n' e hr_n, ih rest hr_k (ls'.length + 1) e hr_c]
                simp
      · by_cases h5 : (l != "" && !(pyStartsWith l markStr)) = true
        · simp only [h1, h5, if_true, if_false]
          rw [ih ls' hk n' (odInsertIfAbsent e l []) hn',
            ih ls' hk (ls'.length + 1) (odInsertIfAbsent e l []) (by omega)]
          simp
        · simp only [h1, h5, if_false]
          rw [ih ls' hk n' e hn', ih ls' hk (ls'.length + 1) e (by omega)]
          simp

/-!  Step equations for `parseGo`, derived from fuel sufficiency. -/

theorem parseGo_nil (e : Entries) : parseGo [] e = e := rfl

theorem parseGo_excluded {l : String} {ls : List String} {e : Entries}
    (h1 : pyStartsWith l extinfStr = true)
    (h2 : is_excluded_group l = true ∨ is_excluded_language (extractTitle l) = true) :
    parseGo (l :: ls) e = parseGo (skipBlock ls) e := by
  have hsb : (skipBlock ls).length ≤ ls.length := skipBlock_length_le ls
  have hrec := parseGoF_eq_parseGo (skipBlock ls).length (skipBlock ls) le_rfl
    (ls.length + 1) e (by omega)
  have e1 : parseGo (l :: ls) e = (parseGoF (ls.length + 1 + 1) (l :: ls) e).getD [] := by
    simp [parseGo]
  rw [e1, parseGoF_succ_cons]
  by_cases hg : is_excluded_group l = true
  · simp only [h1, hg, if_true]
    rw [hrec]
    simp
  · have hl : is_excluded_language (extractTitle l) = true := h2.resolve_left hg
    simp only [h1, hg, hl, if_true, Bool.false_eq_true, if_false]
    rw [hrec]
    simp

theorem pyStartsWith_extinf_mark {l : String}
    (h : pyStartsWith l extinfStr = true) : pyStartsWith l markStr = true := by
  unfold pyStartsWith at h ⊢
  rw [isPrefixOf_eq_true_iff] at h ⊢
  have hme : markStr.data <+: extinfStr.data := by decide
  exact hme.trans h

theorem parseGo_plain {l : String} {ls : List String} {e : Entries}
    (h1 : pyStartsWith l markStr = false) (h2 : l ≠ "") :
    parseGo (l :: ls) e = parseGo ls (odInsertIfAbsent e l []) := by
  have hx : pyStartsWith l extinfStr = false := by
    cases he : pyStartsWith l extinfStr with
    | false => rfl
    | true => rw [pyStartsWith_extinf_mark he] at h1; exact absurd h1 (by simp)
  have hrec := parseGoF_eq_parseGo ls.length ls le_rfl (ls.length + 1)
    (odInsertIfAbsent e l []) (by omega)
  have hc : (l != "" && !(pyStartsWith l markStr)) = true := by
    simp [bne_iff_ne, h2, h1]
  have e1 : parseGo (l :: ls) e = (parseGoF (ls.length + 1 + 1) (l :: ls) e).getD [] := by
    simp [parseGo]
  rw [e1, parseGoF_succ_cons]
  simp only [hx, hc, Bool.false_eq_true, if_false, if_true]
  rw [hrec]
  simp

theorem parseGo_block_insert {l : String} {ls props : List String} {url : String}
    {rest : List String} {e : Entries}
    (h1 : pyStartsWith l extinfStr = true)
    (h2 : is_excluded_group l = false)
    (h3 : is_excluded_language (extractTitle l) = false)
    (hcp : collectProps ls = (props, url :: rest))
    (h4 : url ≠ "") (h5 : pyStartsWith url markStr = false) :
    parseGo (l :: ls) e = parseGo rest (odInsertIfAbsent e url (l :: props)) := by
  have hcp_len := collectProps_snd_length ls
  rw [hcp] at hcp_len
  simp only [List.length_cons] at hcp_len
  have hrec := parseGoF_eq_parseGo rest.length rest le_rfl (ls.length + 1)
    (odInsertIfAbsent e url (l :: props)) (by omega)
  have hc : (url != "" && !(pyStartsWith url markStr)) = true := by
    simp [bne_iff_ne, h4, h5]
  have e1 : parseGo (l :: ls) e = (parseGoF (ls.length + 1 + 1) (l :: ls) e).getD [] := by
    simp [parseGo]
  rw [e1, parseGoF_succ_cons]
  simp only [h1, h2, h3, hcp, hc, Bool.false_eq_true, if_false, if_true]
  rw [hrec]
  simp

theorem parseGo_block_skip {l : String} {ls props : List String} {url : String}
    {rest : List String} {e : Entries}
    (h1 : pyStartsWith l extinfStr = true)
    (h2 : is_excluded_group l = false)
    (h3 : is_excluded_language (extractTitle l) = false)
    (hcp : collectProps ls = (props, url :: rest))
    (hbad : url = "" ∨ pyStartsWith url markStr = true) :
    parseGo (l :: ls) e = parseGo rest e := by
  have hcp_len := collectProps_snd_length ls
  rw [hcp] at hcp_len
  simp only [List.length_cons] at hcp_len
  have hrec := parseGoF_eq_parseGo rest.length rest le_rfl (ls.length + 1) e (by omega)
  have hcond : (url != "" && !(pyStartsWith url markStr)) = false := by
    rcases hbad with h | h <;> simp [h, bne_iff_ne]
  have e1 : parseGo (l :: ls) e = (parseGoF (ls.length + 1 + 1) (l :: ls) e).getD [] := by
    simp [parseGo]
  rw [e1, parseGoF_succ_cons]
  simp only [h1, h2, h3, hcp, hcond, Bool.false_eq_true, if_false, if_true]
  rw [hrec]
  simp

/-!  Lookup and key-order lemmas for the merger. -/

theorem odLookup_append (e₁ e₂ : Entries) (k : String) :
    odLookup (e₁ ++ e₂) k = (odLookup e₁ k).or (odLookup e₂ k) := by
  unfold odLookup
  rw [List.find?_append]
  cases h : e₁.find? (fun p => p.1 == k) <;> simp [Option.or]

theorem odLookup_cons (p : String × List String) (ps : Entries) (k : String) :
    odLookup (p :: ps) k = if p.1 == k then some p.2 else odLookup ps k := by
  unfold odLookup
  cases hbe : (p.1 == k) <;> simp [List.find?_cons, hbe]

theorem containsKey_lookup_isSome (m : Entries) (k : String)
    (h : containsKey m k = true) : ∃ v, odLookup m k = some v := by
  unfold containsKey at h
  rw [List.any_eq_true] at h
  obtain ⟨q, hq, hbq⟩ := h
  have : (m.find? (fun p => p.1 == k)).isSome := by
    rw [List.find?_isSome]
    exact ⟨q, hq, hbq⟩
  unfold odLookup
  obtain ⟨v, hv⟩ := Option.isSome_iff_exists.mp this
  exact ⟨v.2, by rw [hv]; rfl⟩

theorem mergePairs_lookup (ps : Entries) :
    ∀ (m : Entries) (k : String),
      odLookup (mergePairs m ps) k = (odLookup m k).or (odLookup ps k) := by
  induction ps with
  | nil =>
    intro m k
    have h0 : odLookup ([] : Entries) k = none := rfl
    have h1 : mergePairs m [] = m := rfl
    rw [h1, h0]
    cases h : odLookup m k <;> simp [Option.or]
  | cons p ps ih =>
    intro m k
    have step : mergePairs m (p :: ps) = mergePairs (odInsertIfAbsent m p.1 p.2) ps := rfl
    rw [step, ih]
    by_cases hck : containsKey m p.1 = true
    · simp only [odInsertIfAbsent, hck, if_true]
      by_cases hke : p.1 = k
      · subst hke
        obtain ⟨v, hv⟩ := containsKey_lookup_isSome m p.1 hck
        rw [hv]
        simp [Option.or]
      · rw [odLookup_cons]
        simp only [beq_iff_eq, hke, if_false]
    · have hck' : containsKey m p.1 = false := by
        revert hck; cases containsKey m p.1 <;> simp
      simp only [odInsertIfAbsent, hck', Bool.false_eq_true, if_false]
      rw [odLookup_append, odLookup_cons p [] k, odLookup_cons p ps k]
      have h0 : odLookup ([] : Entries) k = none := rfl
      rw [h0]
      cases ho : odLookup m k <;> cases hbe : (p.1 == k) <;> simp [Option.or, hbe]

theorem mergeFold_lookup (srcs : List (String × Entries)) :
    ∀ (m : Entries) (k : String),
      odLookup (srcs.foldl (fun merged s => mergePairs merged s.2) m) k =
        (odLookup m k).or (firstSome (srcs.map (fun s => odLookup s.2 k))) := by
  induction srcs with
  | nil =>
    intro m k
    cases h : odLookup m k <;> simp [h, firstSome, Option.or]
  | cons s ss ih =>
    intro m k
    rw [List.foldl_cons, ih, mergePairs_lookup]
    cases h1 : odLookup m k <;> cases h2 : odLookup s.2 k <;>
      simp [h1, h2, Option.or, firstSome]

theorem containsKey_eq_keys_any (e : Entries) (k : String) :
    containsKey e k = (odKeys e).any (fun s => s == k) := by
  induction e with
  | nil => rfl
  | cons p ps ih =>
    show (p.1 == k || containsKey ps k) = (p.1 == k || (odKeys ps).any (fun s => s == k))
    rw [ih]

theorem firstDedupAux_append (a b : List String) :
    ∀ seen, firstDedupAux seen (a ++ b) =
      firstDedupAux seen a ++ firstDedupAux (seen ++ firstDedupAux seen a) b := by
  induction a with
  | nil => intro seen; simp [firstDedupAux]
  | cons x a ih =>
    intro seen
    by_cases hx : seen.any (fun s => s == x) = true
    · simp only [List.cons_append, firstDedupAux, hx, if_true]
      exact ih seen
    · have hx' : seen.any (fun s => s == x) = false := by
        revert hx; cases seen.any (fun s => s == x) <;> simp
      simp only [List.cons_append, firstDedupAux, hx', Bool.false_eq_true, if_false,
        List.append_eq]
      rw [ih (seen ++ [x])]
      simp [List.append_assoc]

theorem mergePairs_keys (ps : Entries) :
    ∀ m : Entries,
      odKeys (mergePairs m ps) = odKeys m ++ firstDedupAux (odKeys m) (odKeys ps) := by
  induction ps with
  | nil => intro m; simp [mergePairs, odKeys, firstDedupAux]
  | cons p ps ih =>
    intro m
    have step : mergePairs m (p :: ps) = mergePairs (odInsertIfAbsent m p.1 p.2) ps := rfl
    have hkeys : odKeys (p :: ps) = p.1 :: odKeys ps := rfl
    rw [step, ih, hkeys]
    by_cases hck : containsKey m p.1 = true
    · have hseen : (odKeys m).any (fun s => s == p.1) = true := by
        rw [← containsKey_eq_keys_any]; exact hck
      simp only [odInsertIfAbsent, hck, if_true, firstDedupAux, hseen]
    · have hck' : containsKey m p.1 = false := by
        revert hck; cases containsKey m p.1 <;> simp
      have hseen : (odKeys m).any (fun s => s == p.1) = false := by
        rw [← containsKey_eq_keys_any]; exact hck'
      simp only [odInsertIfAbsent, hck', Bool.false_eq_true, if_false, firstDedupAux, hseen]
      have hap : odKeys (m ++ [(p.1, p.2)]) = odKeys m ++ [p.1] := by simp [odKeys]
      rw [hap]
      simp [List.append_assoc]

theorem mergeFold_keys (srcs : List (String × Entries)) :
    ∀ m : Entries,
      odKeys (srcs.foldl (fun merged s => mergePairs merged s.2) m) =
        odKeys m ++ firstDedupAux (odKeys m) ((srcs.map (fun s => odKeys s.2)).flatten) := by
  induction srcs with
  | nil => intro m; simp [firstDedupAux]
  | cons s ss ih =>
    intro m
    rw [List.foldl_cons, ih, mergePairs_keys]
    have hfl : ((s :: ss).map (fun s => odKeys s.2)).flatten =
        odKeys s.2 ++ (ss.map (fun s => odKeys s.2)).flatten := by simp
    rw [hfl, firstDedupAux_append]
    simp [List.append_assoc]

/-!  Serializer lemmas. -/

theorem renderLines_append (a b : List String) :
    renderLines (a ++ b) = renderLines a ++ renderLines b := by
  induction a with
  | nil => simp [renderLines]
  | cons l rest ih =>
    simp only [List.cons_append, renderLines, List.append_eq, ih, String.append_assoc]

theorem foldl_block_append (block : List String) :
    ∀ acc : String,
      block.foldl (fun a b => a ++ b ++ newlineStr) acc = acc ++ renderLines block := by
  induction block with
  | nil => intro acc; simp [renderLines]
  | cons b bs ih =>
    intro acc
    rw [List.foldl_cons, ih]
    simp [renderLines, String.append_assoc]

theorem save_foldl (m : Entries) :
    ∀ acc : String,
      m.foldl
        (fun acc p => (p.2.foldl (fun a b => a ++ b ++ newlineStr) acc) ++ p.1 ++ newlineStr)
        acc
      = acc ++ renderLines (m.flatMap (fun p => p.2 ++ [p.1])) := by
  induction m with
  | nil => intro acc; simp [renderLines]
  | cons p ps ih =>
    intro acc
    rw [List.foldl_cons, ih, foldl_block_append]
    have hfl : (p :: ps).flatMap (fun p => p.2 ++ [p.1]) =
        (p.2 ++ [p.1]) ++ ps.flatMap (fun p => p.2 ++ [p.1]) := by simp
    rw [hfl, renderLines_append, renderLines_append]
    simp [renderLines, String.append_assoc]

/-!  Soundness of the `group-title` attribute extraction: an extracted value
always comes from an actual `group-title="…"` span on the line. -/

theorem ciMatch_sound :
    ∀ (ps cs rest : List Char), ciMatch ps cs = some rest →
      ∃ kc, cs = kc ++ rest ∧ kc.map Char.toLower = ps := by
  intro ps
  induction ps with
  | nil =>
    intro cs rest h
    have hcr : cs = rest := by simpa [ciMatch] using h
    exact ⟨[], by simp [hcr], rfl⟩
  | cons p ps ih =>
    intro cs rest h
    cases cs with
    | nil => simp [ciMatch] at h
    | cons c cs' =>
      by_cases hc : c.toLower = p
      · have h' : ciMatch ps cs' = some rest := by simpa [ciMatch, hc] using h
        obtain ⟨kc, hkc, hmap⟩ := ih cs' rest h'
        exact ⟨c :: kc, by simp [hkc], by simp [hmap, hc]⟩
      · simp [ciMatch, hc] at h

theorem mem_split_first (a : Char) :
    ∀ cs : List Char, a ∈ cs →
      ∃ post, cs = cs.takeWhile (fun c => c ≠ a) ++ a :: post := by
  intro cs
  induction cs with
  | nil => intro h; simp at h
  | cons c cs' ih =>
    intro h
    by_cases hca : c = a
    · subst hca
      exact ⟨cs', by simp [List.takeWhile_cons]⟩
    · have h' : a ∈ cs' := by
        rcases List.mem_cons.mp h with h0 | h0
        · exact absurd h0.symm hca
        · exact h0
      obtain ⟨post, hp⟩ := ih h'
      refine ⟨post, ?_⟩
      have h1 : (c :: cs').takeWhile (fun x => x ≠ a) = c :: cs'.takeWhile (fun x => x ≠ a) := by
        simp [List.takeWhile_cons, hca]
      rw [h1, List.cons_append]
      exact congrArg (c :: ·) hp

theorem takeVal_sound :
    ∀ (cs v : List Char), takeVal cs = some v → ∃ post, cs = v ++ '"' :: post := by
  intro cs v h
  unfold takeVal at h
  by_cases hq : cs.contains '"' = true
  · rw [if_pos hq] at h
    have hv : cs.takeWhile (fun c => c ≠ '"') = v := by simpa using h
    have hm : ('"' : Char) ∈ cs := by
      rw [← List.elem_iff]
      exact hq
    obtain ⟨post, hp⟩ := mem_split_first '"' cs hm
    exact ⟨post, by rw [← hv]; exact hp⟩
  · rw [if_neg hq] at h
    exact absurd h (by simp)

theorem findGT_sound :
    ∀ (cs v : List Char), findGT cs = some v →
      ∃ pre kc post, cs = pre ++ (kc ++ (v ++ '"' :: post)) ∧
        kc.map Char.toLower = gtKeyChars := by
  intro cs
  induction cs with
  | nil => intro v h; simp [findGT] at h
  | cons c cs' ih =>
    intro v h
    rw [findGT] at h
    cases hcm : ciMatch gtKeyChars (c :: cs') with
    | none =>
      rw [hcm] at h
      have h' : findGT cs' = some v := h
      obtain ⟨pre, kc, post, hsplit, hmap⟩ := ih v h'
      exact ⟨c :: pre, kc, post, by simp [hsplit], hmap⟩
    | some rest =>
      rw [hcm] at h
      have h' : (match takeVal rest with
          | some w => some w
          | none => findGT cs') = some v := h
      cases htv : takeVal rest with
      | none =>
        rw [htv] at h'
        have h'' : findGT cs' = some v := h'
        obtain ⟨pre, kc, post, hsplit, hmap⟩ := ih v h''
        exact ⟨c :: pre, kc, post, by simp [hsplit], hmap⟩
      | some v' =>
        rw [htv] at h'
        have hv : v' = v := by simpa using h'
        subst hv
        obtain ⟨kc, hkc, hmap⟩ := ciMatch_sound gtKeyChars (c :: cs') rest hcm
        obtain ⟨post, hpost⟩ := takeVal_sound rest v' htv
        exact ⟨[], kc, post, by simp [hkc, hpost], hmap⟩

theorem toLower_quote : ('"' : Char).toLower = '"' := by decide

theorem get_group_title_excluded {l : String}
    (h : get_group_title l ∈ EXCLUDED_GROUPS) : is_excluded_group l = true := by
  unfold get_group_title at h
  cases hf : findGT l.data with
  | none =>
    rw [hf] at h
    exact absurd h (by decide)
  | some v =>
    rw [hf] at h
    obtain ⟨pre, kc, post, hsplit, hmap⟩ := findGT_sound l.data v hf
    unfold is_excluded_group
    rw [List.any_eq_true]
    refine ⟨pyLower (String.mk v), h, ?_⟩
    unfold pyContains
    rw [containsSub_eq_true_iff]
    have hdata : (gtPat (pyLower (String.mk v))).data =
        gtKeyChars ++ (v.map Char.toLower ++ ['"']) := by
      simp [gtPat, pyLower, gtKeyChars, String.data_append, List.append_assoc]
    have hlow : (pyLower l).data = l.data.map Char.toLower := rfl
    rw [hdata, hlow, hsplit]
    refine ⟨pre.map Char.toLower, post.map Char.toLower, ?_⟩
    simp [List.map_append, hmap, toLower_quote, List.append_assoc]

/-!  Lemmas about the source-loading loop of `main`. -/

theorem loadSourcesFrom_entries :
    ∀ (rs : List (Option String)) (i j : Nat),
      (loadSourcesFrom i rs).map (fun s => s.2) =
        (loadSourcesFrom j rs).map (fun s => s.2) := by
  intro rs
  induction rs with
  | nil => intro i j; rfl
  | cons r rs ih =>
    intro i j
    cases r with
    | none => exact ih (i + 1) (j + 1)
    | some content =>
      by_cases hc : (content != "") = true
      · simp only [loadSourcesFrom, hc, if_true, List.map_cons]
        rw [ih (i + 1) (j + 1)]
      · have hc' : (content != "") = false := by
          revert hc; cases (content != "") <;> simp
        simp only [loadSourcesFrom, hc', Bool.false_eq_true, if_false]
        exact ih (i + 1) (j + 1)

theorem loadSourcesFrom_nil_iff :
    ∀ (rs : List (Option String)) (i : Nat),
      loadSourcesFrom i rs = [] ↔ ∀ r ∈ rs, r = none ∨ r = some "" := by
  intro rs
  induction rs with
  | nil => intro i; simp [loadSourcesFrom]
  | cons r rs ih =>
    intro i
    cases r with
    | none =>
      simp only [loadSourcesFrom]
      rw [ih (i + 1)]
      simp
    | some content =>
      by_cases hc : (content != "") = true
      · simp only [loadSourcesFrom, hc, if_true]
        have hne : content ≠ "" := bne_iff_ne.mp hc
        simp [hne]
      · have hc' : (content != "") = false := by
          revert hc; cases (content != "") <;> simp
        have heq : content = "" := by
          have := bne_iff_ne (a := content) (b := "")
          rw [hc'] at this
          simpa using this
        simp only [loadSourcesFrom, hc', Bool.false_eq_true, if_false]
        rw [ih (i + 1)]
        simp [heq]

theorem merge_m3us_entries_eq :
    ∀ (s1 s2 : List (String × Entries)),
      s1.map (fun s => s.2) = s2.map (fun s => s.2) →
        merge_m3us s1 = merge_m3us s2 := by
  have haux : ∀ (s1 : List (String × Entries)) (s2 : List (String × Entries)) (m : Entries),
      s1.map (fun s => s.2) = s2.map (fun s => s.2) →
        s1.foldl (fun merged s => mergePairs merged s.2) m =
          s2.foldl (fun merged s => mergePairs merged s.2) m := by
    intro s1
    induction s1 with
    | nil =>
      intro s2 m h
      have : s2 = [] := by
        cases s2 with
        | nil => rfl
        | cons a b => simp at h
      subst this
      rfl
    | cons a s1' ih =>
      intro s2 m h
      cases s2 with
      | nil => simp at h
      | cons b s2' =>
        simp only [List.map_cons, List.cons.injEq] at h
        rw [List.foldl_cons, List.foldl_cons, h.1]
        exact ih s2' (mergePairs m b.2) h.2
  intro s1 s2 h
  exact haux s1 s2 [] h

/-!  Extra concrete data used by the witnesses. -/

/-- The first (category-excluded) directive line of `c5doc`. -/
def c5line1 : String := "#EXTINF:-1 group-title=\"Music\",A"

/-- A concrete locator line. -/
def c5url : String := "http://b"

/-- A category-excluded directive line (witness data). -/
def c6d : String := "#EXTINF:-1 group-title=\"Devotional\",Foo"

/-- A concrete prop line (witness data). -/
def c6attr : String := "#KODIPROP:inputstream.adaptive.license_type=clearkey"

/-- A concrete locator line (witness data). -/
def c6url : String := "http://w"

/-- A non-excluded directive line (witness data). -/
def c10d : String := "#EXTINF:-1,Foo"

/-- A concrete prop line (witness data). -/
def c10prop : String := "#KODIPROP:x=y"

/-- A concrete locator line (witness data). -/
def c10url : String := "http://u10"

/-- The empty string (a successful fetch of an empty document). -/
def emptyStr : String := ""

/-- A one-line non-empty document (witness data). -/
def w7doc : String := "#"

/-!  The claims. -/

/-- Claim C1: for every locator that occurs more than once, the retained block
is that of the first occurrence.  Across sources, the merged mapping's lookup
equals the first source lookup (in priority order) that yields a value; and
the insert-if-absent idiom used by the parser (lines 120-121) and the merger
(lines 146-147) leaves an existing binding untouched, so a later block for the
same locator is discarded, never merged in or overwriting. -/
theorem claim_C1 :
    (∀ (srcs : List (String × Entries)) (url : String),
      odLookup (merge_m3us srcs) url =
        firstSome (srcs.map (fun s => odLookup s.2 url))) ∧
    (∀ (entries : Entries) (url : String) (block : List String),
      containsKey entries url = true →
        odInsertIfAbsent entries url block = entries) := by
  constructor
  · intro srcs url
    unfold merge_m3us
    rw [mergeFold_lookup srcs [] url,
      show odLookup ([] : Entries) url = none from rfl]
    cases h2 : firstSome (srcs.map fun s => odLookup s.2 url) <;> simp [Option.or]
  · intro entries url block h
    unfold odInsertIfAbsent
    rw [if_pos h]

/-- Witness for claim C1: a locator in both sources keeps the first source's
block, and a repeated insert of an existing key is a no-op. -/
theorem claim_C1_witness :
    odLookup (merge_m3us [("a", [("u", ["b1"])]), ("b", [("u", ["b2"])])]) "u" =
      some ["b1"] ∧
    odInsertIfAbsent [("u", ["b1"])] "u" ["b2"] = [("u", ["b1"])] := by
  constructor
  · rw [claim_C1.1 [("a", [("u", ["b1"])]), ("b", [("u", ["b2"])])] "u"]
    decide
  · exact claim_C1.2 [("u", ["b1"])] "u" ["b2"] (by decide)

/-- Claim C2: the merged mapping's iteration order is the concatenation of the
sources' key orders (source priority order first, insertion order within a
source), with later duplicates removed, keeping each key at its first
position. -/
theorem claim_C2 :
    ∀ srcs : List (String × Entries),
      odKeys (merge_m3us srcs) =
        firstDedup ((srcs.map (fun s => odKeys s.2)).flatten) := by
  intro srcs
  unfold merge_m3us firstDedup
  rw [mergeFold_keys srcs []]
  rfl

/-- Counterexample to claim C3: on `c3line` the extracted `group-title`
attribute value is `sports`, which is not an excluded category, yet the line
is excluded on category grounds (the substring test fires on the text
`group-title="music"` occurring later on the line), and the whole block is
dropped by the parser. -/
theorem claim_C3_counterexample :
    get_group_title c3line = "sports" ∧
    ("sports" : String) ∉ EXCLUDED_GROUPS ∧
    is_excluded_group c3line = true ∧
    parse_m3u c3doc = [] :=
  ⟨by decide, by decide, by decide, by decide⟩

/-- Claim C3 (amended): the category-exclusion decision is a case-insensitive
substring test — a directive line is excluded on category grounds exactly when
the text `group-title="<g>"` occurs as a substring of the lowercased line for
some configured excluded category `<g>`; the quoted-attribute extraction is
not consulted for this decision. -/
theorem claim_C3 :
    ∀ extinf_line : String,
      is_excluded_group extinf_line = true ↔
        ∃ g ∈ EXCLUDED_GROUPS, (gtPat g).data <:+: (pyLower extinf_line).data := by
  intro l
  unfold is_excluded_group pyContains
  rw [List.any_eq_true]
  constructor
  · rintro ⟨g, hg, hc⟩
    exact ⟨g, hg, (containsSub_eq_true_iff _ _).mp hc⟩
  · rintro ⟨g, hg, hi⟩
    exact ⟨g, hg, (containsSub_eq_true_iff _ _).mpr hi⟩

/-- Claim C4 (code bug): the code's own comment says the title is "everything
after the last comma", and the spec repeats it, but `re.search(r',(.+)$', …)`
matches at the leftmost comma: on `c4line` the code's title is `Tamil,ESPN`
(after the first comma), not `ESPN` (after the last comma), so the entry is
language-excluded although its last-comma title is not. -/
theorem claim_C4 :
    extractTitle c4line = "Tamil,ESPN" ∧
    titleAfterLastComma c4line = "ESPN" ∧
    is_excluded_language (extractTitle c4line) = true ∧
    is_excluded_language (titleAfterLastComma c4line) = false ∧
    parse_m3u c4doc = [] :=
  ⟨by decide, by decide, by decide, by decide, by decide⟩

/-- Counterexample to claim C5: in `c5doc` a category-excluded directive with
no locator of its own is immediately followed by a second directive that is
neither category- nor language-excluded; the skip loop consumes the second
directive and its locator, so the parsed mapping is empty instead of holding
the second block. -/
theorem claim_C5_counterexample :
    is_excluded_group c5line2 = false ∧
    is_excluded_language (extractTitle c5line2) = false ∧
    parse_m3u c5doc = [] :=
  ⟨by decide, by decide, by decide⟩

/-- Claim C5 (amended): when a directive triggers category or language
exclusion, the parser skips the directive line, then every following line
that starts with `#` (including further directive lines) or is blank, then
the next line if it is a locator; consequently a directive following the
excluded block is classified and processed normally exactly when a locator
line terminates the excluded block before it. -/
theorem claim_C5 :
    (∀ (d : String) (hs : List String) (u : String) (rest : List String) (e : Entries),
      pyStartsWith d extinfStr = true →
      (is_excluded_group d = true ∨ is_excluded_language (extractTitle d) = true) →
      (∀ x ∈ hs, skipP x = true) →
      skipP u = false →
      parseGo (d :: (hs ++ u :: rest)) e = parseGo rest e) ∧
    (∀ (d : String) (hs : List String) (u d2 : String) (rest2 : List String) (e : Entries),
      pyStartsWith d extinfStr = true →
      (is_excluded_group d = true ∨ is_excluded_language (extractTitle d) = true) →
      (∀ x ∈ hs, skipP x = true) →
      skipP u = false →
      parseGo (d :: (hs ++ u :: d2 :: rest2)) e = parseGo (d2 :: rest2) e) := by
  constructor
  · intro d hs u rest e h1 h2 h3 h4
    rw [parseGo_excluded h1 h2, skipBlock_eq hs u rest h3 h4]
  · intro d hs u d2 rest2 e h1 h2 h3 h4
    rw [parseGo_excluded h1 h2, skipBlock_eq hs u (d2 :: rest2) h3 h4]

/-- Witness for claim C5: the skip swallows a following directive when the
excluded block has no locator, and resumes at a following directive when a
locator terminates the excluded block. -/
theorem claim_C5_witness :
    parseGo [c5line1, c5line2, c5url] [] = [] ∧
    parseGo [c5line1, c5url, c5line2] [] = parseGo [c5line2] [] := by
  constructor
  · have h := claim_C5.1 c5line1 [c5line2] c5url [] []
      (by decide) (Or.inl (by decide)) (by decide) (by decide)
    simpa using h
  · have h := claim_C5.2 c5line1 [] c5url c5line2 [] []
      (by decide) (Or.inl (by decide)) (by decide) (by decide)
    simpa using h

/-- Claim C6: a block whose extracted category is an excluded category, or
whose extracted title contains an excluded language token as a
case-insensitive substring (no word-boundary tokenization), contributes
nothing to the mapping: the parser consumes the whole block (directive,
attribute lines, locator) leaving the mapping unchanged, and parsing such a
block alone yields the empty mapping, so its locator is absent. -/
theorem claim_C6 :
    ∀ (d : String) (attrs : List String) (url : String) (rest : List String) (e : Entries),
      pyStartsWith d extinfStr = true →
      (get_group_title d ∈ EXCLUDED_GROUPS ∨
        ∃ lang ∈ EXCLUDE_LANGUAGES, lang.data <:+: (pyLower (extractTitle d)).data) →
      (∀ a ∈ attrs, pyStartsWith a markStr = true ∨ isBlankPy a = true) →
      pyStartsWith url markStr = false →
      isBlankPy url = false →
      parseGo (d :: (attrs ++ url :: rest)) e = parseGo rest e ∧
      parseGo (d :: (attrs ++ [url])) [] = [] := by
  intro d attrs url rest e h1 h2 h3 h4 h5
  have hex : is_excluded_group d = true ∨ is_excluded_language (extractTitle d) = true := by
    by_cases hg : is_excluded_group d = true
    · exact Or.inl hg
    · rcases h2 with hcat | hlang
      · exact absurd (get_group_title_excluded hcat) hg
      · refine Or.inr ?_
        unfold is_excluded_language pyContains
        rw [List.any_eq_true]
        obtain ⟨lang, hmem, hinf⟩ := hlang
        exact ⟨lang, hmem, (containsSub_eq_true_iff _ _).mpr hinf⟩
  have hall : ∀ x ∈ attrs, skipP x = true := by
    intro x hx
    rcases h3 x hx with h | h <;> simp [skipP, h]
  have hu : skipP url = false := by simp [skipP, h4, h5]
  constructor
  · rw [parseGo_excluded h1 hex, skipBlock_eq attrs url rest hall hu]
  · rw [parseGo_excluded h1 hex, skipBlock_eq attrs url [] hall hu]
    rfl

/-- Witness for claim C6: a devotional-category block with one prop line and a
locator parses to the empty mapping. -/
theorem claim_C6_witness :
    parseGo [c6d, c6attr, c6url] [] = [] := by
  have h := (claim_C6 c6d [c6attr] c6url [] []
    (by decide) (Or.inl (by decide)) (by decide) (by decide) (by decide)).2
  simpa using h

/-- Counterexample to claim C7: one source whose fetch succeeds with empty
content — not a fetch failure — still leads the run to terminate without
producing any output, because `main` tests truthiness (`if content:`), which
conflates empty content with failure. -/
theorem claim_C7_counterexample : main_model [some emptyStr] = none := by decide

/-- Claim C7 (amended): a fetch failure is non-fatal (the failed source
contributes nothing and the rest are still parsed and merged), and the run
terminates without output exactly when every source fails or returns empty
content; a successful fetch returning non-empty content always yields
output. -/
theorem claim_C7 :
    (∀ rs : List (Option String),
      main_model rs = none ↔ ∀ r ∈ rs, r = none ∨ r = some "") ∧
    (∀ (rs : List (Option String)) (c : String),
      c ≠ "" → ∃ out, main_model (some c :: rs) = some out) ∧
    (∀ rs : List (Option String), main_model (none :: rs) = main_model rs) := by
  refine ⟨?_, ?_, ?_⟩
  · intro rs
    show (if (loadSourcesFrom 1 rs).isEmpty then none
        else some (save_merged (merge_m3us (loadSourcesFrom 1 rs)))) = none ↔ _
    cases hl : loadSourcesFrom 1 rs with
    | nil =>
      simp only [List.isEmpty_nil, if_true]
      rw [← loadSourcesFrom_nil_iff rs 1]
      simp [hl]
    | cons a as =>
      simp only [List.isEmpty_cons, Bool.false_eq_true, if_false]
      rw [← loadSourcesFrom_nil_iff rs 1]
      simp [hl]
  · intro rs c hc
    refine ⟨save_merged (merge_m3us (loadSourcesFrom 1 (some c :: rs))), ?_⟩
    show (if (loadSourcesFrom 1 (some c :: rs)).isEmpty then none
        else some (save_merged (merge_m3us (loadSourcesFrom 1 (some c :: rs))))) = _
    have hbne : (c != "") = true := bne_iff_ne.mpr hc
    have hstep : loadSourcesFrom 1 (some c :: rs) =
        ("Source " ++ toString 1, parse_m3u c) :: loadSourcesFrom 2 rs := by
      simp [loadSourcesFrom, hbne]
    rw [hstep]
    simp
  · intro rs
    have h1 : loadSourcesFrom 1 (none :: rs) = loadSourcesFrom 2 rs := rfl
    have hnil : loadSourcesFrom 2 rs = [] ↔ loadSourcesFrom 1 rs = [] := by
      rw [loadSourcesFrom_nil_iff rs 2, loadSourcesFrom_nil_iff rs 1]
    show (if (loadSourcesFrom 1 (none :: rs)).isEmpty then none
        else some (save_merged (merge_m3us (loadSourcesFrom 1 (none :: rs))))) =
      (if (loadSourcesFrom 1 rs).isEmpty then none
        else some (save_merged (merge_m3us (loadSourcesFrom 1 rs))))
    rw [h1]
    have hm : merge_m3us (loadSourcesFrom 2 rs) = merge_m3us (loadSourcesFrom 1 rs) :=
      merge_m3us_entries_eq _ _ (loadSourcesFrom_entries rs 2 1)
    cases hl2 : loadSourcesFrom 2 rs with
    | nil =>
      have hl1 : loadSourcesFrom 1 rs = [] := hnil.mp hl2
      simp [hl1]
    | cons a as =>
      cases hl1 : loadSourcesFrom 1 rs with
      | nil => exact absurd (hnil.mpr hl1) (by simp [hl2])
      | cons b bs =>
        have hm2 : merge_m3us (a :: as) = merge_m3us (b :: bs) := by
          rw [← hl2, ← hl1]; exact hm
        simp [hm2]

/-- Witness for claim C7: a successful non-empty fetch yields output. -/
theorem claim_C7_witness :
    (w7doc ≠ "") ∧ ∃ out, main_model [some w7doc] = some out :=
  ⟨by decide, claim_C7.2.1 [] w7doc (by decide)⟩

/-- Claim C8: the rendered output is the header line (with the embedded EPG
reference) followed, for each entry in the merged mapping's order, by the
entry's block lines verbatim and then its locator line, every line terminated
by a newline; an entry with an empty block contributes only its locator
line. -/
theorem claim_C8 :
    ∀ merged : Entries,
      save_merged merged =
        renderLines (m3uHeader :: merged.flatMap (fun p => p.2 ++ [p.1])) := by
  intro merged
  unfold save_merged
  rw [save_foldl]
  simp [renderLines, String.append_assoc]

/-- Claim C9: the parser total-runs on every input text — the scanning loop,
run with its line-count budget, always terminates with a mapping (never the
budget-exhaustion marker), for well-formed and malformed documents alike;
`parse_m3u` and `merge_m3us` are total functions of their inputs. -/
theorem claim_C9 :
    ∀ content : String,
      (parseGoF ((pySplitLines content).length + 1) (pySplitLines content) []).isSome
        = true := by
  intro content
  rw [parseGoF_eq_parseGo (pySplitLines content).length (pySplitLines content) le_rfl
    ((pySplitLines content).length + 1) [] (by omega)]
  rfl

/-- Counterexample to claim C10: with a whitespace-only (non-empty) separator
line, the accumulated block is NOT discarded — the whitespace line itself is
taken as the locator and keyed to the full block, while the real locator
later becomes a plain entry. -/
theorem claim_C10_counterexample :
    parse_m3u c10doc = [(" ", ["#EXTINF:-1,A"]), ("http://u", [])] := by decide

/-- Claim C10 (amended): if a truly empty line separates a non-excluded
block's directive/prop lines from its locator, the parser discards the
accumulated lines entirely and later inserts the locator as a plain entry
with an empty block (when not already a key); a whitespace-only non-empty
separator is instead itself taken as the locator. -/
theorem claim_C10 :
    ∀ (d : String) (props : List String) (url : String) (rest : List String) (e : Entries),
      pyStartsWith d extinfStr = true →
      is_excluded_group d = false →
      is_excluded_language (extractTitle d) = false →
      (∀ x ∈ props, isPropLine x = true) →
      url ≠ "" → pyStartsWith url markStr = false →
      parseGo (d :: (props ++ "" :: url :: rest)) e =
        parseGo rest (odInsertIfAbsent e url []) := by
  intro d props url rest e h1 h2 h3 hall h4 h5
  have hempty : isPropLine ("") = false := by decide
  have hcp : collectProps (props ++ "" :: url :: rest) = (props, "" :: url :: rest) :=
    collectProps_append props ("") (url :: rest) hall hempty
  have hstep := parseGo_block_skip (e := e) h1 h2 h3 hcp (Or.inl rfl)
  rw [hstep, parseGo_plain h5 h4]

/-- Witness for claim C10: a block whose prop is separated from the locator by
an empty line loses its metadata; the locator enters as a plain entry. -/
theorem claim_C10_witness :
    parseGo [c10d, c10prop, "", c10url] [] = [(c10url, [])] := by
  have h := claim_C10 c10d [c10prop] c10url [] []
    (by decide) (by decide) (by decide) (by decide) (by decide) (by decide)
  simpa [parseGo_nil, odInsertIfAbsent, containsKey] using h
